import Mathlib

/-!
# Verification of the dl4cv feed-forward training toolkit

A shallow embedding, over `ℚ`, of the numerical layers in
`dl4cv/layers.py`, of the parameter/gradient bookkeeping in
`dl4cv/classifiers/fc_net.py`, and of the training control loop in
`dl4cv/solver.py`, together with theorems settling the specification
claims about them.

Conventions:
* numpy arrays of shape `(N, D)` become functions `Fin N → Fin D → ℚ`,
  arrays of shape `(D,)` become `Fin D → ℚ`;
* `np.sqrt`, `np.exp` and `np.log` are transcendental library calls; the
  embedding threads them through as explicit function parameters
  (`sq`, `xexp`, `xlog`), with the properties a proof needs (positivity
  of `exp`, `sqrt 0 = 0`) taken as hypotheses;
* Python dictionaries with string keys become association lists with
  update-or-insert assignment;
* the solver's accuracy values (Python floats used only in order
  comparisons against each other and against `0`) are embedded through a
  linearly ordered type with a zero, and its parameter store (opaque to
  the solver, which only copies, swaps and threads it) through an
  association list with an abstract payload type.

The file is organized as definitions first, then theorems.
-/

/-! ## Definitions: ReLU (`dl4cv/layers.py`, `relu_forward` /
`relu_backward`) -/

/-- `relu_forward(x)`: `out = x * (x > 0)`, `cache = x` (elementwise over an
arbitrary index set, modelling "any shape"). -/
def relu_forward {ι : Type} (x : ι → ℚ) : (ι → ℚ) × (ι → ℚ) :=
  (fun i => x i * (if 0 < x i then 1 else 0), x)

/-- `relu_backward(dout, cache)`: `dx = copy(dout); dx[x <= 0] = 0`. -/
def relu_backward {ι : Type} (dout cache : ι → ℚ) : ι → ℚ :=
  fun i => if cache i ≤ 0 then 0 else dout i

/-! ## Definitions: softmax loss (`dl4cv/layers.py`, `softmax_loss`)

Class scores have shape `(N, C+1)`: the per-row maximum taken by the code
requires at least one class, and the labels `y : Fin N → Fin (C+1)` carry
the contract `0 ≤ y[i] < C+1` in their type. -/

/-- `np.max(x, axis=1)`: the row maximum of the score matrix. -/
def rowMax {N C : ℕ} (x : Fin N → Fin (C + 1) → ℚ) (i : Fin N) : ℚ :=
  Finset.univ.sup' Finset.univ_nonempty (x i)

/-- The normalized probabilities of `softmax_loss`:
`probs = np.exp(x - np.max(x, axis=1, keepdims=True))` followed by
`probs /= np.sum(probs, axis=1, keepdims=True)`. -/
def softmaxProbs {N C : ℕ} (xexp : ℚ → ℚ) (x : Fin N → Fin (C + 1) → ℚ) :
    Fin N → Fin (C + 1) → ℚ :=
  fun i j => xexp (x i j - rowMax x i) / ∑ k, xexp (x i k - rowMax x i)

/-- `softmax_loss(x, y)`: returns
`loss = -np.sum(np.log(probs[arange(N), y])) / N` and
`dx = probs.copy(); dx[arange(N), y] -= 1; dx /= N`. -/
def softmax_loss {N C : ℕ} (xexp xlog : ℚ → ℚ)
    (x : Fin N → Fin (C + 1) → ℚ) (y : Fin N → Fin (C + 1)) :
    ℚ × (Fin N → Fin (C + 1) → ℚ) :=
  (-(∑ i, xlog (softmaxProbs xexp x i (y i))) / N,
   fun i j => (softmaxProbs xexp x i j - if j = y i then 1 else 0) / N)

/-! ## Definitions: batch normalization (`dl4cv/layers.py`,
`batchnorm_forward` / `batchnorm_backward`)

`np.sqrt` is threaded through as the function parameter `sq`. -/

/-- Matrices of shape `(N, D)`. -/
abbrev Mat (N D : ℕ) : Type := Fin N → Fin D → ℚ

/-- Per-feature vectors of shape `(D,)`. -/
abbrev Vec (D : ℕ) : Type := Fin D → ℚ

/-- The cache tuple
`(out, x_norm, beta, gamma, x_minus_mean, ivar, sqrtvar, var, eps)`
stored by the train-mode forward pass. -/
structure BNCache (N D : ℕ) where
  out : Mat N D
  x_norm : Mat N D
  beta : Vec D
  gamma : Vec D
  x_minus_mean : Mat N D
  ivar : Vec D
  sqrtvar : Vec D
  var : Vec D
  eps : ℚ
deriving DecidableEq

/-- The values produced by the train branch of `batchnorm_forward`:
the output, the cache, and the updated running statistics written back
into `bn_param`. -/
structure BNTrainResult (N D : ℕ) where
  out : Mat N D
  cache : BNCache N D
  running_mean : Vec D
  running_var : Vec D
deriving DecidableEq

/-- The `mode == 'train'` branch of `batchnorm_forward`, line by line:
sample mean, centered input, elementwise square, uncorrected variance
`1/N * sum`, `sqrtvar = sqrt(var + eps)`, `ivar = 1/sqrtvar`,
normalization, scale by `gamma`, shift by `beta`, and the exponential
moving average update of the running statistics. -/
def batchnorm_forward_train {N D : ℕ} (sq : ℚ → ℚ) (eps momentum : ℚ)
    (x : Mat N D) (gamma beta running_mean running_var : Vec D) :
    BNTrainResult N D :=
  let sample_mean : Vec D := fun d => (∑ i, x i d) / N
  let x_minus_mean : Mat N D := fun i d => x i d - sample_mean d
  let sq2 : Mat N D := fun i d => x_minus_mean i d ^ 2
  let var : Vec D := fun d => 1 / N * ∑ i, sq2 i d
  let sqrtvar : Vec D := fun d => sq (var d + eps)
  let ivar : Vec D := fun d => 1 / sqrtvar d
  let x_norm : Mat N D := fun i d => x_minus_mean i d * ivar d
  let gammax : Mat N D := fun i d => gamma d * x_norm i d
  let out : Mat N D := fun i d => gammax i d + beta d
  { out := out
    cache := ⟨out, x_norm, beta, gamma, x_minus_mean, ivar, sqrtvar, var, eps⟩
    running_mean := fun d => momentum * running_mean d + (1 - momentum) * sample_mean d
    running_var := fun d => momentum * running_var d + (1 - momentum) * var d }

/-- `batchnorm_backward(dout, cache)`, following the code's staged
computation graph.  Note the code unpacks the cache as
`xout, x_norm, beta, gamma, ...` and computes
`dgamma = np.sum(dgammax * xout, axis=0)` against `xout` — the forward
*output* — rather than against `x_norm`. -/
def batchnorm_backward {N D : ℕ} (sq : ℚ → ℚ) (dout : Mat N D)
    (c : BNCache N D) : Mat N D × Vec D × Vec D :=
  let dbeta : Vec D := fun d => ∑ i, dout i d
  let dgammax : Mat N D := dout
  let dgamma : Vec D := fun d => ∑ i, dgammax i d * c.out i d
  let dx_norm : Mat N D := fun i d => c.gamma d * dgammax i d
  let divar : Vec D := fun d => ∑ i, dx_norm i d * c.x_minus_mean i d
  let dminus_mean_1 : Mat N D := fun i d => dx_norm i d * c.ivar d
  let dsqrtvar : Vec D := fun d => divar d * (-1 / c.sqrtvar d ^ 2)
  let dvar : Vec D := fun d => dsqrtvar d * (1 / (2 * sq (c.var d + c.eps)))
  let dsq : Mat N D := fun _ d => 1 / N * dvar d
  let dminus_mean_2 : Mat N D := fun i d => 2 * c.x_minus_mean i d * dsq i d
  let dx1 : Mat N D := fun i d => dminus_mean_2 i d + dminus_mean_1 i d
  let dsample_mean : Vec D := fun d => -∑ i, (dminus_mean_2 i d + dminus_mean_1 i d)
  let dx2 : Mat N D := fun _ d => 1 / N * dsample_mean d
  let dx : Mat N D := fun i d => dx1 i d + dx2 i d
  (dx, dgamma, dbeta)

/-- The `mode == 'test'` branch of `batchnorm_forward`:
`x = (x - running_mean) / np.sqrt(running_var); out = x * gamma + beta`.
The division carries no `eps` stabilizer; the embedding returns `none`
when any per-feature denominator is zero (numpy would divide by zero). -/
def batchnorm_forward_test {N D : ℕ} (sq : ℚ → ℚ) (x : Mat N D)
    (gamma beta running_mean running_var : Vec D) : Option (Mat N D) :=
  if ∀ d, sq (running_var d) ≠ 0 then
    some (fun i d => (x i d - running_mean d) / sq (running_var d) * gamma d + beta d)
  else none

/-- `bn_param.get('running_var', np.zeros(D))`: a missing entry defaults
to the all-zero array. -/
def getBnEntry {D : ℕ} (entry : Option (Vec D)) : Vec D :=
  entry.getD (fun _ => 0)

/-- A square-root model agreeing with `np.sqrt` at the only argument the
concrete batchnorm run below evaluates it at: `sqrt(9/4) = 3/2`. -/
def sqrtQ : ℚ → ℚ := fun q => if q = 9 / 4 then 3 / 2 else 0

/-- The cache produced by a train-mode `batchnorm_forward` call on the
batch `x = [[0], [2]]` with `gamma = [2]`, `beta = [1]`, `eps = 5/4`:
here `var = 1`, `sqrtvar = 3/2`, `x_norm = [[-2/3], [2/3]]` and
`out = [[-1/3], [7/3]]`. -/
def bnBugCache : BNCache 2 1 :=
  (batchnorm_forward_train sqrtQ (5 / 4) (9 / 10)
    (fun i _ => if i = 0 then 0 else 2) (fun _ => 2) (fun _ => 1)
    (fun _ => 0) (fun _ => 0)).cache

/-! ## Definitions: mode switching in `FullyConnectedNet.loss`
(`dl4cv/classifiers/fc_net.py`, lines 249-258) -/

/-- Python dictionary assignment `d[k] = v`: overwrite in place if the key
exists, append otherwise. -/
def dictSet : List (String × String) → String → String → List (String × String)
  | [], k, v => [(k, v)]
  | (k0, v0) :: rest, k, v =>
    if k0 = k then (k0, v) :: rest else (k0, v0) :: dictSet rest k v

/-- Python dictionary lookup `d[k]` / `d.get(k)`. -/
def dictGet : List (String × String) → String → Option String
  | [], _ => none
  | (k0, v0) :: rest, k => if k0 = k then some v0 else dictGet rest k

/-- The mode-setting prologue of `FullyConnectedNet.loss`:
`mode = 'test' if y is None else 'train'`, then
`self.dropout_param['mode'] = mode` (the guard `is not None` always holds:
the constructor stores `{}` when dropout is off), and for every batchnorm
state record the code executes `bn_param[mode] = mode` — the assignment
indexes the dictionary with the *value* `mode`, not the key `'mode'`. -/
def setLayerModes (y_present : Bool) (dropout_param : List (String × String))
    (bn_params : List (List (String × String))) :
    List (String × String) × List (List (String × String)) :=
  let mode := if y_present then "train" else "test"
  (dictSet dropout_param "mode" mode,
   bn_params.map fun bn_param => dictSet bn_param mode mode)

/-! ## Definitions: parameter-store and gradient-mapping key sets
(`dl4cv/classifiers/fc_net.py`)

The dictionaries `self.params` and `grads` are built by straight-line
key assignments; the embedding records the assigned keys in program
order. -/

/-- `TwoLayerNet.__init__`: keys assigned to `self.params`, in order. -/
def twoLayerParamsKeys : List String := ["W1", "b1", "W2", "b2"]

/-- `TwoLayerNet.loss` (training mode): keys assigned to `grads`,
in order. -/
def twoLayerGradsKeys : List String := ["W1", "W2", "b1", "b2"]

/-- Keys stored for hidden layer `i` (0-based loop index) by
`FullyConnectedNet.__init__`: `W{i+1}`, `b{i+1}`, and when batchnorm is
enabled also `gamma{i+1}`, `beta{i+1}`. -/
def layerParamKeys (bn : Bool) (i : ℕ) : List String :=
  ["W" ++ toString (i + 1), "b" ++ toString (i + 1)]
    ++ if bn then ["gamma" ++ toString (i + 1), "beta" ++ toString (i + 1)] else []

/-- All keys of `self.params` after `FullyConnectedNet.__init__` with
`num_layers = L`: the `range(L-1)` loop, then the last layer's
`W{L}`, `b{L}`. -/
def fcnetParamsKeys (L : ℕ) (bn : Bool) : List String :=
  ((List.range (L - 1)).flatMap (layerParamKeys bn))
    ++ ["W" ++ toString L, "b" ++ toString L]

/-- Keys assigned to `grads` for hidden layer `i` in the backward loop of
`FullyConnectedNet.loss`: `gamma{i+1}`, `beta{i+1}` when batchnorm is
enabled, then `W{i+1}`, `b{i+1}`. -/
def layerGradKeys (bn : Bool) (i : ℕ) : List String :=
  (if bn then ["gamma" ++ toString (i + 1), "beta" ++ toString (i + 1)] else [])
    ++ ["W" ++ toString (i + 1), "b" ++ toString (i + 1)]

/-- All keys assigned to `grads` by a training-mode
`FullyConnectedNet.loss` call: the last layer's `W{L}`, `b{L}` first,
then the backward loop `for i in range(L-2, -1, -1)`. -/
def fcnetGradsKeys (L : ℕ) (bn : Bool) : List String :=
  ["W" ++ toString L, "b" ++ toString L]
    ++ ((List.range (L - 1)).reverse.flatMap (layerGradKeys bn))

/-! ## Definitions: the training loop (`dl4cv/solver.py`, `Solver`)

The solver treats `model.params` as an opaque dictionary (it only copies
it, swaps it, and threads it through the update rule), and uses accuracy
values only in order comparisons against each other and against `0`.
Accordingly the embedding takes an abstract payload type `π` for a
parameter array and a linearly ordered type `A` with zero for
accuracies.  The numerical effect of one `_step` call (batch sampling,
`model.loss`, update rule) on the store is an oracle `stepFn`, and the
accuracies computed by `check_accuracy` at iteration `t` are oracles
`trainAccOf t` / `valAccOf t`; they are external randomness/numerics the
control flow only observes.  Loss history, learning-rate decay, and
verbose reporting touch no field the claims mention and are omitted.
Ghost fields `snapshots`, `checkpointIters` and `earlyStopIter` record,
respectively, `model.params` as it stood at each evaluation checkpoint,
the iteration index of each checkpoint, and the iteration at which the
early-stopping `break` fired (if any); they instrument the embedding and
influence nothing. -/

/-- A parameter store: Python's `model.params` dictionary. -/
abbrev SParams (π : Type) : Type := List (String × π)

/-- The solver configuration and its external collaborators. -/
structure SolverCfg (π A : Type) where
  stepFn : ℕ → SParams π → SParams π
  trainAccOf : ℕ → A
  valAccOf : ℕ → A
  numTrain : ℕ
  batchSize : ℕ
  numEpochs : ℕ
  earlyStopping : ℤ

/-- `iterations_per_epoch = max(num_train // batch_size, 1)`. -/
def SolverCfg.itersPerEpoch {π A : Type} (c : SolverCfg π A) : ℕ :=
  max (c.numTrain / c.batchSize) 1

/-- `num_iterations = num_epochs * iterations_per_epoch`. -/
def SolverCfg.numIterations {π A : Type} (c : SolverCfg π A) : ℕ :=
  c.numEpochs * c.itersPerEpoch

/-- The solver's mutable state during `train()`, plus ghost fields. -/
structure SolverState (π A : Type) where
  modelParams : SParams π
  epoch : ℕ
  bestValAcc : A
  bestParams : SParams π
  esCounter : ℤ
  trainAccHistory : List A
  valAccHistory : List A
  snapshots : List (SParams π)
  checkpointIters : List ℕ
  earlyStopIter : Option ℕ
deriving DecidableEq

/-- `Solver._reset`: zero epoch counter, `best_val_acc = 0`,
`best_params = {}`, `early_stopping_counter = early_stopping`, empty
histories. -/
def solverReset {π A : Type} [Zero A] (c : SolverCfg π A) (p0 : SParams π) :
    SolverState π A :=
  { modelParams := p0, epoch := 0, bestValAcc := 0, bestParams := [],
    esCounter := c.earlyStopping, trainAccHistory := [], valAccHistory := [],
    snapshots := [], checkpointIters := [], earlyStopIter := none }

/-- The evaluation guard of `Solver.train`:
`first_it or last_it or epoch_end`, with `first_it = (t == 0)`,
`last_it = (t == num_iterations + 1)` and
`epoch_end = ((t + 1) % iterations_per_epoch == 0)`. -/
def checkpointCond (t numIterations ipe : ℕ) : Bool :=
  (t == 0) || (t == numIterations + 1) || ((t + 1) % ipe == 0)

/-- One iteration of the `for t in range(num_iterations)` loop of
`Solver.train`: the `_step` parameter update, the epoch-boundary epoch
increment, and — when the evaluation guard holds — the accuracy
checkpoint with best-snapshot update, early-stopping counter bookkeeping
and possible parameter-restoring `break` (the returned Bool). -/
def trainIter {π A : Type} [LinearOrder A] (c : SolverCfg π A) (t : ℕ)
    (s : SolverState π A) : SolverState π A × Bool :=
  let ipe := c.itersPerEpoch
  let params1 := c.stepFn t s.modelParams
  let s1 : SolverState π A :=
    { s with modelParams := params1,
             epoch := if (t + 1) % ipe == 0 then s.epoch + 1 else s.epoch }
  if checkpointCond t c.numIterations ipe then
    let valAcc := c.valAccOf t
    let s2 : SolverState π A :=
      { s1 with trainAccHistory := s1.trainAccHistory ++ [c.trainAccOf t],
                valAccHistory := s1.valAccHistory ++ [valAcc],
                snapshots := s1.snapshots ++ [params1],
                checkpointIters := s1.checkpointIters ++ [t] }
    if s2.bestValAcc < valAcc then
      ({ s2 with bestValAcc := valAcc, bestParams := params1,
                 esCounter := c.earlyStopping }, false)
    else
      let s3 : SolverState π A := { s2 with esCounter := s2.esCounter - 1 }
      if c.earlyStopping > -1 ∧ s3.esCounter ≤ 0 then
        ({ s3 with modelParams := s3.bestParams, earlyStopIter := some t }, true)
      else (s3, false)
  else (s1, false)

/-- The training loop over the remaining iteration indices; a `true`
break flag from `trainIter` exits immediately. -/
def runIters {π A : Type} [LinearOrder A] (c : SolverCfg π A) :
    List ℕ → SolverState π A → SolverState π A
  | [], s => s
  | t :: ts, s =>
    let p := trainIter c t s
    if p.2 then p.1 else runIters c ts p.1

/-- `Solver.train()`: reset, run all iterations (possibly cut short by
early stopping), then unconditionally `self.model.params =
self.best_params`. -/
def solverTrain {π A : Type} [LinearOrder A] [Zero A] (c : SolverCfg π A)
    (p0 : SParams π) : SolverState π A :=
  let s := runIters c (List.range c.numIterations) (solverReset c p0)
  { s with modelParams := s.bestParams }

/-- The best-checkpoint fold: starting from the reset values `(0, {})`,
replace the running best exactly when an entry's accuracy strictly
exceeds it — the accumulator the solver maintains in
`(best_val_acc, best_params)` over the checkpoint sequence. -/
def bestOf {π A : Type} [LinearOrder A] [Zero A] (l : List (A × SParams π)) :
    A × SParams π :=
  l.foldl (fun b p => if b.1 < p.1 then p else b) (0, [])

/-- Loop invariant: the solver's `(best_val_acc, best_params)` pair is
the best-checkpoint fold of the recorded (accuracy, snapshot) pairs, and
the two ghost lists are aligned. -/
def SolverInv {π A : Type} [LinearOrder A] [Zero A]
    (s : SolverState π A) : Prop :=
  (s.bestValAcc, s.bestParams) = bestOf (s.valAccHistory.zip s.snapshots)
  ∧ s.valAccHistory.length = s.snapshots.length

/-- Loop invariant for the checkpoint ghost fields: every recorded
checkpoint iteration, and the early-stop iteration if one fired, is the
first iteration or an epoch boundary. -/
def CkptP {π A : Type} (c : SolverCfg π A) (s : SolverState π A) : Prop :=
  (∀ u ∈ s.checkpointIters, u = 0 ∨ (u + 1) % c.itersPerEpoch = 0)
  ∧ ∀ u, s.earlyStopIter = some u → u = 0 ∨ (u + 1) % c.itersPerEpoch = 0

/-- A concrete run (payloads `ℤ`, accuracies `ℤ`): one iteration per
epoch, two epochs, early stopping disabled, validation accuracy `1` at
the first checkpoint and `0` afterwards. -/
def cfgC4 : SolverCfg ℤ ℤ :=
  { stepFn := fun t _ => [("W1", (t : ℤ))]
    trainAccOf := fun _ => 0
    valAccOf := fun t => if t = 0 then 1 else 0
    numTrain := 1, batchSize := 1, numEpochs := 2, earlyStopping := -1 }

/-- A concrete run whose single checkpoint reports validation accuracy
`0`, with early stopping disabled. -/
def cfgC4cex : SolverCfg ℤ ℤ :=
  { stepFn := fun t _ => [("W1", (t : ℤ))]
    trainAccOf := fun _ => 0
    valAccOf := fun _ => 0
    numTrain := 1, batchSize := 1, numEpochs := 1, earlyStopping := -1 }

/-- A concrete run with two iterations per epoch and
`early_stopping = 1`, whose validation accuracy never improves: the
early-stopping counter reaches zero already at the first checkpoint,
`t = 0`, which is mid-epoch. -/
def cfgC6 : SolverCfg ℤ ℤ :=
  { stepFn := fun t _ => [("W1", (t : ℤ))]
    trainAccOf := fun _ => 0
    valAccOf := fun _ => 0
    numTrain := 4, batchSize := 2, numEpochs := 1, earlyStopping := 1 }

/-- A concrete run whose checkpoints all report validation accuracy `0`,
so that the best snapshot is never taken. -/
def cfgC9 : SolverCfg ℤ ℤ :=
  { stepFn := fun t _ => [("W1", (t : ℤ)), ("b1", 3)]
    trainAccOf := fun _ => 0
    valAccOf := fun _ => 0
    numTrain := 2, batchSize := 1, numEpochs := 1, earlyStopping := -1 }

/-! ## Theorems: layer primitives (claims C7, C8, C2, C10) -/

/-- Each probability row sums to `1` as soon as the exponential is
positive-valued (the denominator is then a nonempty sum of positives). -/
theorem softmaxProbs_row_sum {N C : ℕ} (xexp : ℚ → ℚ)
    (x : Fin N → Fin (C + 1) → ℚ) (hpos : ∀ q, 0 < xexp q) (i : Fin N) :
    ∑ j, softmaxProbs xexp x i j = 1 := by
  have hS : 0 < ∑ k, xexp (x i k - rowMax x i) :=
    Finset.sum_pos (fun k _ => hpos _) Finset.univ_nonempty
  unfold softmaxProbs
  rw [← Finset.sum_div, div_self (ne_of_gt hS)]

/-- C7: `softmax_loss` subtracts the row maximum before exponentiating and
normalizes per row, the loss is the negative mean log-probability of the
true class, `dx = (probs - one_hot(y)) / N`, and every row of `dx`
sums to zero. -/
theorem softmax_loss_spec {N C : ℕ} (xexp xlog : ℚ → ℚ)
    (x : Fin N → Fin (C + 1) → ℚ) (y : Fin N → Fin (C + 1))
    (hpos : ∀ q, 0 < xexp q) :
    (softmax_loss xexp xlog x y).1
        = -((∑ i, xlog (softmaxProbs xexp x i (y i))) / N)
      ∧ (∀ i j, (softmax_loss xexp xlog x y).2 i j
        = (softmaxProbs xexp x i j - if j = y i then 1 else 0) / N)
      ∧ (∀ i j, softmaxProbs xexp x i j
        = xexp (x i j - rowMax x i) / ∑ k, xexp (x i k - rowMax x i))
      ∧ (∀ i, ∑ j, (softmax_loss xexp xlog x y).2 i j = 0) := by
  refine ⟨by simp only [softmax_loss]; exact neg_div _ _,
    fun i j => rfl, fun i j => rfl, fun i => ?_⟩
  have hrow := softmaxProbs_row_sum xexp x hpos i
  unfold softmax_loss
  simp only
  rw [← Finset.sum_div, Finset.sum_sub_distrib, hrow,
    Finset.sum_ite_eq' Finset.univ (y i) (fun _ => (1 : ℚ)),
    if_pos (Finset.mem_univ _), sub_self, zero_div]

/-- C7 witness: the softmax theorem applied at a concrete one-example,
one-class input with `exp` modelled by the positive constant function:
the single gradient row sums to zero. -/
theorem softmax_loss_spec_witness :
    ∑ j, (softmax_loss (N := 1) (C := 0) (fun _ => 1) (fun _ => 0)
      (fun _ _ => 0) (fun _ => 0)).2 0 j = 0 :=
  (softmax_loss_spec (fun _ => 1) (fun _ => 0) (fun _ _ => 0) (fun _ => 0)
    (fun _ => one_pos)).2.2.2 0

/-- C8: `relu_backward` passes the upstream gradient through exactly where
the cached input is strictly positive and is exactly zero where the cached
input is `≤ 0`; in particular a zero input maps to a zero gradient. -/
theorem relu_backward_gradient {ι : Type} (dout x : ι → ℚ) (i : ι) :
    (x i ≤ 0 → relu_backward dout x i = 0)
    ∧ (0 < x i → relu_backward dout x i = dout i)
    ∧ (x i = 0 → relu_backward dout x i = 0) := by
  unfold relu_backward
  refine ⟨fun h => if_pos h, fun h => if_neg (not_le.mpr h), fun h => if_pos (le_of_eq h)⟩

/-- C8 witness: the ReLU backward theorem applied at inputs straddling
zero: a zero input kills the gradient, a positive input passes it through. -/
theorem relu_backward_gradient_witness :
    relu_backward (ι := Fin 2) (fun _ => 5) (fun i => if i = 0 then 0 else 3) 0 = 0
    ∧ relu_backward (ι := Fin 2) (fun _ => 5) (fun i => if i = 0 then 0 else 3) 1 = 5 :=
  ⟨(relu_backward_gradient (fun _ => 5) (fun i => if i = 0 then 0 else 3) 0).2.2 (by decide),
   (relu_backward_gradient (fun _ => 5) (fun i => if i = 0 then 0 else 3) 1).2.1 (by decide)⟩

/-- C2 (refuted by the code): on the cache `bnBugCache` produced by a
train-mode forward call, with upstream gradient `dout = [[1], [1]]`, the
`dgamma` returned by `batchnorm_backward` is `2` — the column sum of
`dout` times the forward *output* `xout` — whereas the analytic gradient,
the column sum of `dout` times the normalized input `x_norm`, is `0`.
`dbeta` and `dx` are unaffected; the backward pass unpacks the cache's
first component (`out`) where the gradient needs `x_norm`. -/
theorem batchnorm_backward_dgamma_bug :
    (batchnorm_backward sqrtQ (fun _ _ => 1) bnBugCache).2.1 0 = 2
    ∧ (∑ i, (fun _ _ => (1 : ℚ)) i (0 : Fin 1) * bnBugCache.x_norm i 0) = 0
    ∧ (batchnorm_backward sqrtQ (fun _ _ => 1) bnBugCache).2.1 0
        ≠ ∑ i, (fun _ _ => (1 : ℚ)) i (0 : Fin 1) * bnBugCache.x_norm i 0 := by
  norm_num [batchnorm_backward, batchnorm_forward_train, bnBugCache, sqrtQ,
    Fin.sum_univ_two]

/-- C10: test-mode batch normalization divides by `sqrt(running_var)`
with no `eps` added, so a zero stored running variance (in particular the
all-zero default used when `bn_param` has no `running_var` entry) makes
the normalization an unguarded division by zero (`none` in the `Option`
embedding); when every denominator is nonzero the output is exactly
`(x - running_mean) / sqrt(running_var) * gamma + beta`. -/
theorem batchnorm_test_div_by_zero {N D : ℕ} (sq : ℚ → ℚ)
    (x : Mat N D) (gamma beta rm rv : Vec D) :
    (getBnEntry (D := D) none = fun _ => 0)
    ∧ (sq 0 = 0 → (∃ d, rv d = 0) →
        batchnorm_forward_test sq x gamma beta rm rv = none)
    ∧ (∀ _ : ∀ d, sq (rv d) ≠ 0,
        batchnorm_forward_test sq x gamma beta rm rv
          = some (fun i d => (x i d - rm d) / sq (rv d) * gamma d + beta d)) := by
  refine ⟨rfl, fun h0 hd => ?_, fun hall => ?_⟩
  · obtain ⟨d, hdz⟩ := hd
    unfold batchnorm_forward_test
    rw [if_neg]
    intro hall
    exact hall d (by rw [hdz, h0])
  · unfold batchnorm_forward_test
    rw [if_pos hall]

/-- C10 witness: with `sqrt` sending `0` to `0` and the defaulted
all-zero running variance, the test-mode forward pass on a concrete
one-element batch hits the division by zero. -/
theorem batchnorm_test_div_by_zero_witness :
    batchnorm_forward_test (N := 1) (D := 1) (fun _ => 0) (fun _ _ => 4)
      (fun _ => 1) (fun _ => 0) (fun _ => 0) (getBnEntry none) = none :=
  (batchnorm_test_div_by_zero (fun _ => 0) (fun _ _ => 4) (fun _ => 1)
    (fun _ => 0) (fun _ => 0) (getBnEntry none)).2.1 rfl ⟨0, rfl⟩

/-! ## Theorems: mode switching (claim C1) -/

/-- C1 (refuted by the code): in a test-mode call (`y` absent) on a
batchnorm network whose state record is the constructor's
`{'mode': 'train'}`, the prologue leaves the record's `mode` entry at
`'train'` and merely appends a spurious `'test' ↦ 'test'` entry, while
the dropout record's `mode` entry is correctly set to `'test'`: the
batchnorm sub-layers do not execute in the network's current mode. -/
theorem fcnet_mode_update_bug :
    (setLayerModes false [("mode", "train"), ("p", "1/2")]
        [[("mode", "train")]]).2
      = [[("mode", "train"), ("test", "test")]]
    ∧ dictGet ((setLayerModes false [("mode", "train"), ("p", "1/2")]
        [[("mode", "train")]]).2.headI) "mode" = some "train"
    ∧ ("train" : String) ≠ "test"
    ∧ dictGet (setLayerModes false [("mode", "train"), ("p", "1/2")]
        [[("mode", "train")]]).1 "mode" = some "test" := by decide

/-! ## Theorems: key sets (claim C3) -/

/-- A hidden layer's gradient keys and parameter keys agree as sets. -/
theorem mem_layerGradKeys_iff (bn : Bool) (i : ℕ) (a : String) :
    a ∈ layerGradKeys bn i ↔ a ∈ layerParamKeys bn i := by
  cases bn
  · simp [layerGradKeys, layerParamKeys]
  · simp [layerGradKeys, layerParamKeys]
    tauto

/-- Membership in the gradient key list. -/
theorem mem_fcnetGradsKeys (L : ℕ) (bn : Bool) (a : String) :
    a ∈ fcnetGradsKeys L bn
      ↔ a = "W" ++ toString L ∨ a = "b" ++ toString L
        ∨ ∃ i, i < L - 1 ∧ a ∈ layerGradKeys bn i := by
  simp [fcnetGradsKeys]

/-- Membership in the parameter key list. -/
theorem mem_fcnetParamsKeys (L : ℕ) (bn : Bool) (a : String) :
    a ∈ fcnetParamsKeys L bn
      ↔ (∃ i, i < L - 1 ∧ a ∈ layerParamKeys bn i)
        ∨ a = "W" ++ toString L ∨ a = "b" ++ toString L := by
  simp [fcnetParamsKeys]

/-- C3: for both architectures, the gradient mapping returned by a
training-mode `loss` call has exactly the same key set as the network's
parameter store — for `FullyConnectedNet` for every depth and with or
without batch normalization (`gamma{i}`/`beta{i}` included). -/
theorem grads_keys_eq_params_keys :
    twoLayerGradsKeys.toFinset = twoLayerParamsKeys.toFinset
    ∧ ∀ (L : ℕ) (bn : Bool),
        (fcnetGradsKeys L bn).toFinset = (fcnetParamsKeys L bn).toFinset := by
  refine ⟨by decide, fun L bn => ?_⟩
  ext a
  rw [List.mem_toFinset, List.mem_toFinset, mem_fcnetGradsKeys, mem_fcnetParamsKeys]
  constructor
  · rintro (h | h | ⟨i, hi, hm⟩)
    exacts [Or.inr (Or.inl h), Or.inr (Or.inr h),
      Or.inl ⟨i, hi, (mem_layerGradKeys_iff bn i a).1 hm⟩]
  · rintro (⟨i, hi, hm⟩ | h | h)
    exacts [Or.inr (Or.inr ⟨i, hi, (mem_layerGradKeys_iff bn i a).2 hm⟩),
      Or.inl h, Or.inr (Or.inl h)]

/-! ## Theorems: the training loop (claims C4, C5, C6, C9) -/

/-- Unfolding the best-checkpoint fold over one appended entry. -/
theorem bestOf_append {π A : Type} [LinearOrder A] [Zero A]
    (l : List (A × SParams π)) (p : A × SParams π) :
    bestOf (l ++ [p]) = if (bestOf l).1 < p.1 then p else bestOf l := by
  simp [bestOf, List.foldl_append]

/-- One loop iteration preserves the best-checkpoint invariant. -/
theorem trainIter_inv {π A : Type} [LinearOrder A] [Zero A]
    (c : SolverCfg π A) (t : ℕ) (s : SolverState π A) (h : SolverInv s) :
    SolverInv (trainIter c t s).1 := by
  obtain ⟨h1, h2⟩ := h
  by_cases hc : checkpointCond t c.numIterations c.itersPerEpoch
  · by_cases himp : s.bestValAcc < c.valAccOf t
    · constructor
      · simp [trainIter, hc, himp, List.zip_append h2, bestOf_append, ← h1]
      · simp [trainIter, hc, himp, h2]
    · constructor
      · simp only [trainIter, hc, himp, if_true, if_false]
        split <;> simp [List.zip_append h2, bestOf_append, ← h1, himp]
      · simp only [trainIter, hc, himp, if_true, if_false]
        split <;> simp [h2]
  · constructor
    · simpa [trainIter, hc] using h1
    · simpa [trainIter, hc] using h2

/-- The whole loop preserves the best-checkpoint invariant. -/
theorem runIters_inv {π A : Type} [LinearOrder A] [Zero A]
    (c : SolverCfg π A) (ts : List ℕ) (s : SolverState π A) (h : SolverInv s) :
    SolverInv (runIters c ts s) := by
  induction ts generalizing s with
  | nil => exact h
  | cons t ts ih =>
    have hstep := trainIter_inv c t s h
    by_cases hb : (trainIter c t s).2
    · simpa [runIters, hb] using hstep
    · simpa [runIters, hb] using ih _ hstep

/-- The best-checkpoint fold never goes below its initial accuracy `0`. -/
theorem bestOf_fst_nonneg {π A : Type} [LinearOrder A] [Zero A]
    (l : List (A × SParams π)) : (0 : A) ≤ (bestOf l).1 := by
  induction l using List.reverseRecOn with
  | nil => exact le_refl 0
  | append_singleton l p ih =>
    rw [bestOf_append]
    split_ifs with hlt
    · exact le_of_lt (lt_of_le_of_lt ih hlt)
    · exact ih

/-- Every recorded accuracy is bounded by the fold's accuracy. -/
theorem le_bestOf_fst {π A : Type} [LinearOrder A] [Zero A]
    (l : List (A × SParams π)) (p : A × SParams π) (hp : p ∈ l) :
    p.1 ≤ (bestOf l).1 := by
  induction l using List.reverseRecOn with
  | nil => cases hp
  | append_singleton l q ih =>
    rw [bestOf_append]
    rcases List.mem_append.1 hp with hm | hm
    · split_ifs with hlt
      · exact le_of_lt (lt_of_le_of_lt (ih hm) hlt)
      · exact ih hm
    · rw [List.mem_singleton] at hm
      subst hm
      split_ifs with hlt
      · exact le_refl _
      · exact not_lt.1 hlt

/-- When no entry's accuracy exceeds `0`, the fold keeps its initial
value: accuracy `0` and the empty parameter store. -/
theorem bestOf_nonpos {π A : Type} [LinearOrder A] [Zero A]
    (l : List (A × SParams π)) (h : ∀ p ∈ l, p.1 ≤ 0) :
    bestOf l = ((0 : A), ([] : SParams π)) := by
  induction l using List.reverseRecOn with
  | nil => rfl
  | append_singleton l p ih =>
    have hl : ∀ q ∈ l, q.1 ≤ 0 := fun q hq => h q (List.mem_append_left _ hq)
    rw [bestOf_append, ih hl, if_neg]
    exact not_lt.2 (h p (List.mem_append_right _ (List.mem_singleton_self p)))

/-- When the fold's accuracy is strictly positive, the fold equals the
entry at the *first* index attaining it: entries strictly before that
index have strictly smaller accuracy. -/
theorem bestOf_pos_get {π A : Type} [LinearOrder A] [Zero A]
    (l : List (A × SParams π)) (h : 0 < (bestOf l).1) :
    ∃ i, ∃ hi : i < l.length, bestOf l = l.get ⟨i, hi⟩
      ∧ ∀ j (hj : j < l.length), j < i → (l.get ⟨j, hj⟩).1 < (bestOf l).1 := by
  induction l using List.reverseRecOn with
  | nil => exact absurd h (lt_irrefl 0)
  | append_singleton l p ih =>
    rw [bestOf_append] at h ⊢
    split_ifs at h ⊢ with hlt
    · refine ⟨l.length, by simp, ?_, ?_⟩
      · rw [List.get_eq_getElem]
        exact (List.getElem_concat_length l p l.length rfl _).symm
      · intro j hj hji
        have hjl : j < l.length := hji
        rw [List.get_eq_getElem, List.getElem_append_left hjl]
        exact lt_of_le_of_lt (le_bestOf_fst l _ (List.getElem_mem hjl)) hlt
    · obtain ⟨i, hi, heq, hstrict⟩ := ih h
      refine ⟨i, by simp [Nat.lt_succ_of_lt hi], ?_, ?_⟩
      · rw [List.get_eq_getElem, List.getElem_append_left hi]
        exact heq.trans (by rw [List.get_eq_getElem])
      · intro j hj hji
        have hjl : j < l.length := lt_trans hji hi
        rw [List.get_eq_getElem, List.getElem_append_left hjl]
        exact hstrict j hjl hji

/-- C4 counterexample: a run whose single evaluation checkpoint — hence
the checkpoint with the highest validation accuracy — snapshots the
parameters `{"W1": 0}`, yet because its accuracy is `0`, `train()` ends
by replacing `model.params` with the never-populated empty `best_params`
rather than with that snapshot. -/
theorem train_restores_best_cex :
    (solverTrain cfgC4cex [("W1", 5)]).snapshots = [[("W1", 0)]]
    ∧ (solverTrain cfgC4cex [("W1", 5)]).valAccHistory = [0]
    ∧ (solverTrain cfgC4cex [("W1", 5)]).modelParams = []
    ∧ (solverTrain cfgC4cex [("W1", 5)]).modelParams ≠ [("W1", 0)] := by decide

/-- C4 (amended): whether or not the run was cut short by early stopping,
at the end of `train()` the parameter store equals the snapshot taken at
the first evaluation checkpoint attaining the maximum recorded validation
accuracy — provided some checkpoint's validation accuracy is strictly
positive (otherwise the store becomes the initial empty snapshot, see
`train_restores_best_cex`). -/
theorem train_restores_best_checkpoint {π A : Type} [LinearOrder A] [Zero A]
    (c : SolverCfg π A) (p0 : SParams π)
    (hpos : ∃ a ∈ (solverTrain c p0).valAccHistory, 0 < a) :
    ∃ i, ∃ hv : i < (solverTrain c p0).valAccHistory.length,
      ∃ hs : i < (solverTrain c p0).snapshots.length,
      (solverTrain c p0).modelParams = (solverTrain c p0).snapshots.get ⟨i, hs⟩
      ∧ (∀ j (hj : j < (solverTrain c p0).valAccHistory.length),
          (solverTrain c p0).valAccHistory.get ⟨j, hj⟩
            ≤ (solverTrain c p0).valAccHistory.get ⟨i, hv⟩)
      ∧ ∀ j (hj : j < (solverTrain c p0).valAccHistory.length), j < i →
          (solverTrain c p0).valAccHistory.get ⟨j, hj⟩
            < (solverTrain c p0).valAccHistory.get ⟨i, hv⟩ := by
  obtain ⟨a, ha, h0a⟩ := hpos
  obtain ⟨hbest, hlen⟩ :
      SolverInv (runIters c (List.range c.numIterations) (solverReset c p0)) :=
    runIters_inv c _ _ ⟨rfl, rfl⟩
  set sR := runIters c (List.range c.numIterations) (solverReset c p0) with hsR
  have hTv : (solverTrain c p0).valAccHistory = sR.valAccHistory := rfl
  have hTs : (solverTrain c p0).snapshots = sR.snapshots := rfl
  have hTm : (solverTrain c p0).modelParams = sR.bestParams := rfl
  set zl := sR.valAccHistory.zip sR.snapshots with hzl
  have hzlen : zl.length = sR.valAccHistory.length := by
    rw [hzl, List.length_zip, ← hlen, min_self]
  rw [hTv] at ha
  obtain ⟨⟨j, hj⟩, hget⟩ := List.mem_iff_get.1 ha
  have hjz : j < zl.length := by rw [hzlen]; exact hj
  have hfst : (zl.get ⟨j, hjz⟩).1 = a := by
    rw [← hget]
    simp [hzl, List.get_eq_getElem, List.getElem_zip]
  have hposb : 0 < (bestOf zl).1 := by
    refine lt_of_lt_of_le h0a ?_
    rw [← hfst]
    exact le_bestOf_fst zl _ (List.get_mem zl j hjz)
  obtain ⟨i, hi, heq, hstrict⟩ := bestOf_pos_get zl hposb
  have hv : i < (solverTrain c p0).valAccHistory.length := by
    rw [hTv, ← hzlen]; exact hi
  have hs2 : i < (solverTrain c p0).snapshots.length := by
    rw [hTs, ← hlen, ← hzlen]; exact hi
  have hgeti : ∀ hh : i < zl.length,
      zl.get ⟨i, hh⟩ = ((solverTrain c p0).valAccHistory.get ⟨i, hv⟩,
        (solverTrain c p0).snapshots.get ⟨i, hs2⟩) := by
    intro hh
    simp [hzl, hTv, hTs, List.get_eq_getElem, List.getElem_zip]
  refine ⟨i, hv, hs2, ?_, ?_, ?_⟩
  · rw [hTm]
    have h2 := congrArg Prod.snd hbest
    simp only at h2
    rw [h2, heq, hgeti hi]
  · intro j2 hj2
    have hj2z : j2 < zl.length := by rw [hzlen, ← hTv]; exact hj2
    have h1 : (solverTrain c p0).valAccHistory.get ⟨j2, hj2⟩
        = (zl.get ⟨j2, hj2z⟩).1 := by
      simp [hzl, hTv, List.get_eq_getElem, List.getElem_zip]
    have h2 : (solverTrain c p0).valAccHistory.get ⟨i, hv⟩ = (bestOf zl).1 := by
      rw [heq, hgeti hi]
    rw [h1, h2]
    exact le_bestOf_fst zl _ (List.get_mem zl j2 hj2z)
  · intro j2 hj2 hji
    have hj2z : j2 < zl.length := by rw [hzlen, ← hTv]; exact hj2
    have h1 : (solverTrain c p0).valAccHistory.get ⟨j2, hj2⟩
        = (zl.get ⟨j2, hj2z⟩).1 := by
      simp [hzl, hTv, List.get_eq_getElem, List.getElem_zip]
    have h2 : (solverTrain c p0).valAccHistory.get ⟨i, hv⟩ = (bestOf zl).1 := by
      rw [heq, hgeti hi]
    rw [h1, h2]
    exact hstrict j2 hj2z hji

/-- C4 witness: in the concrete run `cfgC4` (validation accuracy `1` at
the first checkpoint), the theorem applies and the final parameter store
is one of the recorded checkpoint snapshots. -/
theorem train_restores_best_checkpoint_witness :
    (solverTrain cfgC4 []).modelParams ∈ (solverTrain cfgC4 []).snapshots := by
  obtain ⟨i, hv, hs, hm, hmax, hfirst⟩ :=
    train_restores_best_checkpoint cfgC4 [] (by decide)
  rw [hm]
  exact List.get_mem _ _ _

/-- C9: if no evaluation checkpoint reports a validation accuracy
strictly greater than zero, the snapshot (initialized empty, with
`best_val_acc = 0`) is never taken, and at the end of `train()` the
model's parameter store is replaced by the empty mapping. -/
theorem train_zero_acc_empties_params {π A : Type} [LinearOrder A] [Zero A]
    (c : SolverCfg π A) (p0 : SParams π)
    (h : ∀ a ∈ (solverTrain c p0).valAccHistory, a ≤ 0) :
    (solverTrain c p0).modelParams = [] ∧ (solverTrain c p0).bestParams = [] := by
  obtain ⟨hbest, hlen⟩ :
      SolverInv (runIters c (List.range c.numIterations) (solverReset c p0)) :=
    runIters_inv c _ _ ⟨rfl, rfl⟩
  set sR := runIters c (List.range c.numIterations) (solverReset c p0) with hsR
  have hall : ∀ p ∈ sR.valAccHistory.zip sR.snapshots, p.1 ≤ 0 := by
    rintro ⟨a, b⟩ hp
    exact h a (List.of_mem_zip hp).1
  have hzero := bestOf_nonpos _ hall
  rw [hzero] at hbest
  have h2 := congrArg Prod.snd hbest
  simp only at h2
  exact ⟨h2, h2⟩

/-- C9 witness: the concrete run `cfgC9` (all accuracies `0`) ends with
an empty parameter store, discarding the trained parameters the step
function had written. -/
theorem train_zero_acc_empties_params_witness :
    (solverTrain cfgC9 [("W1", 7)]).modelParams = []
    ∧ (solverTrain cfgC9 [("W1", 7)]).bestParams = [] :=
  train_zero_acc_empties_params cfgC9 [("W1", 7)] (by decide)

/-- For loop indices below `num_iterations`, the evaluation guard
reduces to `first_it || epoch_end`: the `last_it` disjunct compares
against `num_iterations + 1` and can never hold there. -/
theorem checkpointCond_of_lt (t nI ipe : ℕ) (h : t < nI) :
    checkpointCond t nI ipe = ((t == 0) || ((t + 1) % ipe == 0)) := by
  have hne : (t == nI + 1) = false := by
    rw [beq_eq_false_iff_ne]
    omega
  unfold checkpointCond
  rw [hne, Bool.or_false]

/-- How one loop iteration can touch the two checkpoint ghost fields:
either it leaves them unchanged, or the evaluation guard held and it
appended / set the current iteration index. -/
theorem trainIter_fields {π A : Type} [LinearOrder A] (c : SolverCfg π A)
    (t : ℕ) (s : SolverState π A) :
    ((trainIter c t s).1.checkpointIters = s.checkpointIters
      ∨ (checkpointCond t c.numIterations c.itersPerEpoch = true
         ∧ (trainIter c t s).1.checkpointIters = s.checkpointIters ++ [t]))
    ∧ ((trainIter c t s).1.earlyStopIter = s.earlyStopIter
      ∨ (checkpointCond t c.numIterations c.itersPerEpoch = true
         ∧ (trainIter c t s).1.earlyStopIter = some t)) := by
  by_cases hc : checkpointCond t c.numIterations c.itersPerEpoch
  · refine ⟨Or.inr ⟨hc, ?_⟩, ?_⟩
    · simp only [trainIter, hc, if_true]
      split
      · rfl
      · split <;> rfl
    · simp only [trainIter, hc, if_true]
      split
      · left; rfl
      · split
        · right; exact ⟨by simp [hc], rfl⟩
        · left; rfl
  · exact ⟨Or.inl (by simp [trainIter, hc]), Or.inl (by simp [trainIter, hc])⟩

/-- One loop iteration with an in-range index preserves the
checkpoint-location invariant. -/
theorem trainIter_ckpt {π A : Type} [LinearOrder A] (c : SolverCfg π A)
    (t : ℕ) (s : SolverState π A) (ht : t < c.numIterations)
    (h : CkptP c s) : CkptP c (trainIter c t s).1 := by
  obtain ⟨h1, h2⟩ := h
  obtain ⟨hf1, hf2⟩ := trainIter_fields c t s
  have hP : checkpointCond t c.numIterations c.itersPerEpoch = true →
      t = 0 ∨ (t + 1) % c.itersPerEpoch = 0 := by
    intro hc
    rw [checkpointCond_of_lt t _ _ ht] at hc
    simpa using hc
  constructor
  · intro u hu
    rcases hf1 with heq | ⟨hc, heq⟩
    · exact h1 u (heq ▸ hu)
    · rw [heq] at hu
      rcases List.mem_append.1 hu with hu | hu
      · exact h1 u hu
      · rw [List.mem_singleton] at hu
        subst hu
        exact hP hc
  · intro u hu
    rcases hf2 with heq | ⟨hc, heq⟩
    · exact h2 u (heq ▸ hu)
    · rw [heq] at hu
      cases Option.some.inj hu
      exact hP hc

/-- The whole loop over in-range indices preserves the
checkpoint-location invariant. -/
theorem runIters_ckpt {π A : Type} [LinearOrder A] (c : SolverCfg π A)
    (ts : List ℕ) (s : SolverState π A) (hts : ∀ u ∈ ts, u < c.numIterations)
    (h : CkptP c s) : CkptP c (runIters c ts s) := by
  induction ts generalizing s with
  | nil => exact h
  | cons t ts ih =>
    have hstep := trainIter_ckpt c t s (hts t (List.mem_cons_self t ts)) h
    by_cases hb : (trainIter c t s).2
    · simpa [runIters, hb] using hstep
    · simpa [runIters, hb] using
        ih _ (fun u hu => hts u (List.mem_cons_of_mem t hu)) hstep

/-- Each run's recorded checkpoints, and its early-stop iteration if one
fired, lie at the first iteration or at an epoch boundary. -/
theorem solverTrain_ckpt {π A : Type} [LinearOrder A] [Zero A]
    (c : SolverCfg π A) (p0 : SParams π) : CkptP c (solverTrain c p0) := by
  have h := runIters_ckpt c (List.range c.numIterations) (solverReset c p0)
    (fun u hu => List.mem_range.1 hu)
    ⟨fun u hu => absurd hu (List.not_mem_nil u), fun u hu => by cases hu⟩
  exact ⟨h.1, h.2⟩

/-- C5: for every loop index `t < num_iterations`, the last-iteration
disjunct `t == num_iterations + 1` of the evaluation guard is false, the
guard reduces to `first_it || epoch_end`, and consequently in every run
each recorded evaluation checkpoint lies at the first iteration or at an
epoch boundary — never additionally at the true final iteration. -/
theorem checkpoint_cond_no_last_iteration {π A : Type} [LinearOrder A] [Zero A]
    (c : SolverCfg π A) (p0 : SParams π) (t : ℕ) (h : t < c.numIterations) :
    (t == c.numIterations + 1) = false
    ∧ checkpointCond t c.numIterations c.itersPerEpoch
        = ((t == 0) || ((t + 1) % c.itersPerEpoch == 0))
    ∧ ∀ u ∈ (solverTrain c p0).checkpointIters,
        u = 0 ∨ (u + 1) % c.itersPerEpoch = 0 :=
  ⟨by rw [beq_eq_false_iff_ne]; omega,
   checkpointCond_of_lt t _ _ h,
   (solverTrain_ckpt c p0).1⟩

/-- C5 witness: the theorem applied to the concrete run `cfgC4` at loop
index `t = 1 < num_iterations = 2`. -/
theorem checkpoint_cond_no_last_iteration_witness :
    ((1 : ℕ) == cfgC4.numIterations + 1) = false
    ∧ checkpointCond 1 cfgC4.numIterations cfgC4.itersPerEpoch
        = (((1 : ℕ) == 0) || ((1 + 1) % cfgC4.itersPerEpoch == 0)) :=
  ⟨(checkpoint_cond_no_last_iteration cfgC4 [] 1 (by decide)).1,
   (checkpoint_cond_no_last_iteration cfgC4 [] 1 (by decide)).2.1⟩

/-- C6 counterexample: in the concrete run `cfgC6` (two iterations per
epoch, patience `1`, never-improving accuracy), the early-stopping break
fires at iteration `t = 0`, which is not an epoch boundary — the epoch
counter still reads `0`, so training terminated mid-epoch. -/
theorem early_stop_mid_epoch_cex :
    (solverTrain cfgC6 []).earlyStopIter = some 0
    ∧ (0 + 1) % cfgC6.itersPerEpoch ≠ 0
    ∧ (solverTrain cfgC6 []).epoch = 0 := by decide

/-- C6 (amended): the early-stopping termination path can take effect
only at an evaluation checkpoint, that is, at the first iteration
(`t = 0`) or at an epoch boundary; other mid-epoch iterations are not
interruptible.  (The first iteration is mid-epoch whenever an epoch
spans more than one iteration — see `early_stop_mid_epoch_cex` — so
"only at an epoch boundary" as originally claimed fails.) -/
theorem early_stop_only_at_first_or_epoch_end {π A : Type}
    [LinearOrder A] [Zero A] (c : SolverCfg π A) (p0 : SParams π) (t : ℕ)
    (h : (solverTrain c p0).earlyStopIter = some t) :
    t = 0 ∨ (t + 1) % c.itersPerEpoch = 0 :=
  (solverTrain_ckpt c p0).2 t h

/-- C6 witness: the amended theorem applied to the concrete early-stopped
run `cfgC6`, whose break fired at `t = 0`. -/
theorem early_stop_only_at_first_or_epoch_end_witness :
    (0 : ℕ) = 0 ∨ (0 + 1) % cfgC6.itersPerEpoch = 0 :=
  early_stop_only_at_first_or_epoch_end cfgC6 [] 0 (by decide)
